import Mathlib

/-!
Verification development for the device-telemetry anomaly-detection core:
the feature-matrix builder, the IQR detector, the IsolationForest-based
ensemble detector with its top-k fallback (agent/detector.py), the per-host
action mapper (agent/actions.py), and the orchestration in app.py.

Python floats are modelled as exact rationals, Python `sorted` as a stable
insertion sort, and the IsolationForest learner as an abstract contract
(deterministic per-row decision and score given matrix, contamination, seed).
-/

set_option allowUnsafeReducibility true in
attribute [semireducible] Rat.add Rat.sub Rat.neg Rat.mul Rat.div Rat.inv Rat.blt Rat.ofScientific

namespace Agent

/-- A Python scalar stored in a device record: int, float, bool or string.
Python distinguishes int from float for `isinstance(x, int)` checks, and a
bool is a subclass of int.  A string carries the result `parsed` that
`float(s)` would produce on it (`none` when `float(s)` raises), since
Python's float parsing is external to the modelled code. -/
inductive Value where
  | int (n : ℤ)
  | float (q : ℚ)
  | bool (b : Bool)
  | str (s : String) (parsed : Option ℚ)
  deriving DecidableEq, Repr

/-- Numeric coercion of detector._num: `float(x)` under try/except.  Ints and
floats coerce to themselves, booleans to 0/1, strings to their float parse. -/
def Value.floatCoerce : Value → Option ℚ
  | .int n => some (n : ℚ)
  | .float q => some q
  | .bool b => some (if b then 1 else 0)
  | .str _ p => p

/-- Numeric view used by `isinstance(x, (int, float))` checks (actions._num,
the IQR column filters): strings never qualify, bools count as ints. -/
def Value.asNum : Value → Option ℚ
  | .int n => some (n : ℚ)
  | .float q => some q
  | .bool b => some (if b then 1 else 0)
  | .str _ _ => none

/-- Integer view used by `isinstance(x, int)` checks (bool is a subclass of
int in Python). -/
def Value.asInt : Value → Option ℤ
  | .int n => some n
  | .bool b => some (if b then 1 else 0)
  | _ => none

/-- Python truthiness `bool(x)` of a scalar. -/
def Value.truthy : Value → Bool
  | .int n => decide (n ≠ 0)
  | .float q => decide (q ≠ 0)
  | .bool b => b
  | .str s _ => decide (s ≠ "")

/-- Python `str(x)` (actions._str applies it to present values).  Exact for
strings and booleans, the cases the rules compare against; numeric renderings
use Lean's printer. -/
def Value.pyStr : Value → String
  | .str s _ => s
  | .bool b => if b then "True" else "False"
  | .int n => toString n
  | .float q => toString q

/-- A device record: a dict from field names to scalars.  `dict.get` returns
None for an absent key; an explicit Python None value behaves identically to
an absent key in every rule of the modelled code, so absence covers both. -/
abbrev Record := List (String × Value)

/-- Python `r.get(k)`: the value at the first matching key, if any. -/
def getField (r : Record) (k : String) : Option Value :=
  (r.find? (fun p => p.1 == k)).map (fun p => p.2)

/-- Python `r[k] = v`: replace the value at an existing key in place, or
append a fresh key at the end (dict insertion order). -/
def setField : Record → String → Value → Record
  | [], k, v => [(k, v)]
  | (k1, v1) :: t, k, v => if k1 = k then (k, v) :: t else (k1, v1) :: setField t k v

/-- Python `x == 1` against a possibly-absent value: numeric cross-type
equality (True == 1 == 1.0); non-numbers and absence compare unequal. -/
def pyEqOne (v : Option Value) : Bool :=
  match v with
  | some x => x.asNum == some 1
  | none => false

/-- Python `math.isclose(a, b)` with the default rel_tol = 1e-9, abs_tol = 0:
abs(a-b) <= max(rel_tol * max(abs(a), abs(b)), abs_tol). -/
def isclose (a b : ℚ) : Bool :=
  decide (|a - b| ≤ max ((1 / 1000000000) * max |a| |b|) 0)

/-- Python `sorted` on rationals: a stable ascending sort. -/
def pySorted (l : List ℚ) : List ℚ := l.insertionSort (fun a b => a ≤ b)

/-- Python 3 `round` to an integer: round half to even. -/
def pyRound (q : ℚ) : ℤ :=
  let f := ⌊q⌋
  let r := q - (f : ℚ)
  if r < 1 / 2 then f
  else if 1 / 2 < r then f + 1
  else if f % 2 = 0 then f else f + 1

/-- Python `int(x)` on a float: truncation toward zero. -/
def pyTrunc (q : ℚ) : ℤ := if 0 ≤ q then ⌊q⌋ else ⌈q⌉

/-- Candidate feature fields of _build_feature_matrix, in source order. -/
def candidates : List String :=
  ["mem_used_pct", "license_expired", "iface_total", "iface_enabled",
   "iface_enabled_ratio", "bgp_peers", "v4nets", "v6nets", "uptime_days",
   "hc_cpu_1min", "hc_cpu_5min", "hc_cpu_threshold", "hc_mem_util",
   "hc_mem_threshold", "hc_env_temp", "hc_env_temp_threshold",
   "hc_uptime_min", "hc_uptime_min_threshold"]

/-- detector._bool01 applied to a dict lookup: None stays None, any present
value becomes 1.0 or 0.0 by truthiness. -/
def bool01 (v : Option Value) : Option ℚ :=
  v.map (fun x => if x.truthy then 1 else 0)

/-- One cell of the raw (pre-imputation) matrix: _bool01 for the
license_expired column, _num (float coercion) for every other candidate. -/
def rawCell (r : Record) (k : String) : Option ℚ :=
  if k = "license_expired" then bool01 (getField r k)
  else (getField r k).bind Value.floatCoerce

/-- The raw row vector of one record over all candidate fields. -/
def rawRow (r : Record) : List (Option ℚ) := candidates.map (rawCell r)

/-- Column j of the raw matrix (one entry per record, missing as none). -/
def colVals (rows : List Record) (j : ℕ) : List (Option ℚ) :=
  rows.map (fun r => (rawRow r).getD j none)

/-- The present (numeric) values of column j across the batch. -/
def presentVals (rows : List Record) (j : ℕ) : List ℚ :=
  (colVals rows j).filterMap id

/-- Column j's present values after the in-place `vals.sort()`. -/
def sortedVals (rows : List Record) (j : ℕ) : List ℚ :=
  pySorted (presentVals rows j)

/-- Column j's median as _build_feature_matrix computes it: none when no
value is present, the middle of the sorted values for an odd count, and
0.5 * (the two middle values summed) for an even count. -/
def colMedian (rows : List Record) (j : ℕ) : Option ℚ :=
  let vals := sortedVals rows j
  let L := vals.length
  if L = 0 then none
  else if L % 2 = 1 then some (vals.getD (L / 2) 0)
  else some ((1 / 2 : ℚ) * (vals.getD (L / 2 - 1) 0 + vals.getD (L / 2) 0))

/-- keep_mask[j]: column j has a present value and the smallest and largest
present values are not within floating tolerance of each other. -/
def keepMask (rows : List Record) (j : ℕ) : Bool :=
  let vals := sortedVals rows j
  !vals.isEmpty && !isclose (vals.getD 0 0) (vals.getD (vals.length - 1) 0)

/-- Indices of the kept candidate columns, in candidate order. -/
def keptIdxs (rows : List Record) : List ℕ :=
  (List.range candidates.length).filter (keepMask rows)

/-- The final matrix cell for record r in column j: the present value as-is,
else the column median, else 0.0. -/
def cellValue (rows : List Record) (r : Record) (j : ℕ) : ℚ :=
  (((rawRow r).getD j none).orElse (fun _ => colMedian rows j)).getD 0

/-- detector._build_feature_matrix: the imputed matrix over the kept columns
together with the kept feature names. -/
def buildFeatureMatrix (rows : List Record) : List (List ℚ) × List String :=
  if rows.isEmpty then ([], [])
  else (rows.map (fun r => (keptIdxs rows).map (cellValue rows r)),
        (keptIdxs rows).map (fun j => candidates.getD j ""))

/-- The numeric entries of a raw value list, sorted, as _iqr_flags computes
them (`isinstance(v, (int, float))` filter, then `sorted`). -/
def iqrNums (values : List (Option Value)) : List ℚ :=
  pySorted (values.filterMap (fun v => v.bind Value.asNum))

/-- Percentile by linear interpolation on a sorted list, as the inner `pct`
of _iqr_flags: idx = (n-1)*p, interpolate between the floor and ceil
elements with weight idx - floor(idx). -/
def pctOf (nums : List ℚ) (p : ℚ) : ℚ :=
  let idx : ℚ := ((nums.length : ℚ) - 1) * p
  let lo : ℤ := ⌊idx⌋
  let hi : ℤ := ⌈idx⌉
  let w : ℚ := idx - (lo : ℚ)
  nums.getD lo.toNat 0 * (1 - w) + nums.getD hi.toNat 0 * w

/-- Q1 of _iqr_flags: the 25th percentile of the sorted numeric values. -/
def iqrQ1 (values : List (Option Value)) : ℚ := pctOf (iqrNums values) (1 / 4)

/-- Q3 of _iqr_flags: the 75th percentile of the sorted numeric values. -/
def iqrQ3 (values : List (Option Value)) : ℚ := pctOf (iqrNums values) (3 / 4)

/-- iqr = max(q3 - q1, 1e-9), the epsilon-guarded interquartile range. -/
def iqrWidth (values : List (Option Value)) : ℚ :=
  max (iqrQ3 values - iqrQ1 values) (1 / 1000000000)

/-- Lower IQR bound: q1 - k * iqr. -/
def iqrLo (values : List (Option Value)) (k : ℚ) : ℚ :=
  iqrQ1 values - k * iqrWidth values

/-- Upper IQR bound: q3 + k * iqr. -/
def iqrHi (values : List (Option Value)) (k : ℚ) : ℚ :=
  iqrQ3 values + k * iqrWidth values

/-- detector._iqr_flags: per-entry outlier flags for one column.  Fewer than
4 numeric entries flags nothing; otherwise an entry is flagged iff it is
numeric and outside [lo, hi]. -/
def iqrFlags (values : List (Option Value)) (k : ℚ) : List Bool :=
  if (iqrNums values).length < 4 then values.map (fun _ => false)
  else values.map (fun v =>
    match v.bind Value.asNum with
    | none => false
    | some q => !(decide (iqrLo values k ≤ q) && decide (q ≤ iqrHi values k)))

/-- Contract of the pluggable outlier learner (sklearn IsolationForest):
given the matrix, the contamination and the random seed, a deterministic
per-row binary decision (-1 anomaly, 1 normal) and a per-row continuous
score (higher = more normal). -/
structure Learner where
  predict : List (List ℚ) → ℚ → ℤ → ℕ → ℤ
  scoreSamples : List (List ℚ) → ℚ → ℤ → ℕ → ℚ

/-- contamination = float(max(0.01, min(0.5, contamination))). -/
def clampContamination (c : ℚ) : ℚ := max (1 / 100) (min (1 / 2) c)

/-- top_k = max(1, int(round(n * contamination))). -/
def topKCount (n : ℕ) (c : ℚ) : ℕ := max 1 (pyRound ((n : ℚ) * c)).toNat

/-- ranked = sorted(range(n), key=lambda i: scores[i]): all n row indices
ranked by ascending score (stable). -/
def rankedIdxs (score : ℕ → ℚ) (n : ℕ) : List ℕ :=
  (List.range n).insertionSort (fun i j => score i ≤ score j)

/-- Row score function of one detector run. -/
def detectScore (L : Learner) (rows : List Record) (c : ℚ) (seed : ℤ) : ℕ → ℚ :=
  L.scoreSamples (buildFeatureMatrix rows).1 (clampContamination c) seed

/-- idxs = [i for i, p in enumerate(pred) if p == -1]. -/
def detectPredIdxs (L : Learner) (rows : List Record) (c : ℚ) (seed : ℤ) : List ℕ :=
  (List.range rows.length).filter
    (fun i => L.predict (buildFeatureMatrix rows).1 (clampContamination c) seed i == -1)

/-- The selected row indices: the binary-decision anomalies, or, if none,
the top-k indices of lowest score from the full ascending ranking. -/
def detectIdxs (L : Learner) (rows : List Record) (c : ℚ) (seed : ℤ) : List ℕ :=
  if (detectPredIdxs L rows c seed).isEmpty then
    (rankedIdxs (detectScore L rows c seed) rows.length).take
      (topKCount rows.length (clampContamination c))
  else detectPredIdxs L rows c seed

/-- The record list after the in-place mutation `rows[i]["_iforest_score"] =
float(scores[i]) for i in idxs` (explicit state passing; `start` is the index
of the first element). -/
def attachScores (score : ℕ → ℚ) (idxs : List ℕ) : ℕ → List Record → List Record
  | _, [] => []
  | start, r :: rs =>
    (if start ∈ idxs then setField r "_iforest_score" (.float (score start)) else r)
      :: attachScores score idxs (start + 1) rs

/-- The batch after one detector run (identical to the input outside the
selected indices). -/
def detectRowsOut (L : Learner) (rows : List Record) (c : ℚ) (seed : ℤ) : List Record :=
  attachScores (detectScore L rows c seed) (detectIdxs L rows c seed) 0 rows

/-- Result shape of detect_outliers_iforest: the returned triple plus the
post-mutation record batch (Python mutates `rows` in place, and the returned
anomaly dicts alias the mutated records). -/
structure DetectResult where
  anomalies : List Record
  featNames : List String
  scores : List ℚ
  rowsOut : List Record
  deriving DecidableEq, Repr

/-- The main branch of detect_outliers_iforest (learner present, matrix
non-degenerate). -/
def detectMain (L : Learner) (rows : List Record) (c : ℚ) (seed : ℤ) : DetectResult :=
  ⟨(detectIdxs L rows c seed).map (fun i => (detectRowsOut L rows c seed).getD i []),
   (buildFeatureMatrix rows).2,
   (detectIdxs L rows c seed).map (detectScore L rows c seed),
   detectRowsOut L rows c seed⟩

/-- detector.detect_outliers_iforest.  `learner = none` models the
IsolationForest import having failed; degenerate batches (no rows, no kept
features) return the empty shape without consulting the learner. -/
def detect_outliers_iforest (learner : Option Learner) (rows : List Record)
    (contamination : ℚ) (random_state : ℤ) : DetectResult :=
  match learner with
  | none => ⟨[], [], [], rows⟩
  | some L =>
    if rows.isEmpty then ⟨[], [], [], rows⟩
    else if ((buildFeatureMatrix rows).2).isEmpty
        || ((buildFeatureMatrix rows).1).isEmpty
        || (((buildFeatureMatrix rows).1).getD 0 []).isEmpty then
      ⟨[], (buildFeatureMatrix rows).2, [], rows⟩
    else detectMain L rows contamination random_state

/-- The remediation hints of actions.suggest_actions, one constructor per
`sug.append` site, carrying the numeric payloads interpolated into the
message text. -/
inductive Suggestion where
  | licenseExpired
  | memPressure
  | ifaceAudit (disabled total : ℤ)
  | bgpNoNeighbors
  | bgpTimers (hold ka : ℚ)
  | recentReboot
  | cpuAtThreshold (cpu thr : ℚ)
  | cpuNearThreshold (cpu thr : ℚ)
  | memUtilHigh (util thr : ℚ)
  | uptimeBelowSlo (up thr : ℤ)
  | envTempHigh (vals : Option (ℚ × ℚ))
  | powerNotOk
  | fansBad (s : String)
  | healthFail
  | monitorBaseline
  deriving DecidableEq, Repr

/-- Discriminator for the BGP timer-sanity hint. -/
def Suggestion.isBgpTimers : Suggestion → Bool
  | .bgpTimers _ _ => true
  | _ => false

/-- actions._num applied to a dict lookup: float(x) when
isinstance(x, (int, float)), else None. -/
def actNum (v : Option Value) : Option ℚ := v.bind Value.asNum

/-- actions._str applied to a dict lookup: str(x) for a present value, the
empty string for an absent one. -/
def strOf (v : Option Value) : String :=
  match v with
  | some x => x.pyStr
  | none => ""

/-- ASCII uppercase of one character (the status strings the code compares
are ASCII; Unicode case mapping is outside the modelled input space). -/
def asciiUpper (c : Char) : Char :=
  if 'a' ≤ c ∧ c ≤ 'z' then Char.ofNat (c.toNat - 32) else c

/-- ASCII lowercase of one character. -/
def asciiLower (c : Char) : Char :=
  if 'A' ≤ c ∧ c ≤ 'Z' then Char.ofNat (c.toNat + 32) else c

/-- Python str.upper() on the ASCII strings the rules compare. -/
def pyUpper (s : String) : String := ⟨s.data.map asciiUpper⟩

/-- Python str.lower() on the ASCII strings the rules compare. -/
def pyLower (s : String) : String := ⟨s.data.map asciiLower⟩

/-- License rule of suggest_actions: status present and expired == 1. -/
def licHints (r : Record) : List Suggestion :=
  if (getField r "license_status").isSome && pyEqOne (getField r "license_expired")
  then [Suggestion.licenseExpired] else []

/-- Inventory memory-pressure rule: mem_used_pct >= 85. -/
def memHints (r : Record) : List Suggestion :=
  match actNum (getField r "mem_used_pct") with
  | some mem => if 85 ≤ mem then [Suggestion.memPressure] else []
  | none => []

/-- Interface-enablement rule: int totals, numeric ratio, total > 0 and
ratio < 0.5. -/
def ifaceHints (r : Record) : List Suggestion :=
  match (getField r "iface_total").bind Value.asInt,
        (getField r "iface_enabled").bind Value.asInt,
        (getField r "iface_enabled_ratio").bind Value.asNum with
  | some t, some e, some ratio =>
    if 0 < t ∧ ratio < 1 / 2 then [Suggestion.ifaceAudit (t - e) t] else []
  | _, _, _ => []

/-- BGP rules, guarded by the presence of bgp_peers: zero neighbors, and
the hold < 3·keepalive timer sanity check. -/
def bgpHints (r : Record) : List Suggestion :=
  match getField r "bgp_peers" with
  | none => []
  | some pv =>
    (match pv.asInt with
     | some p => if p = 0 then [Suggestion.bgpNoNeighbors] else []
     | none => []) ++
    (match actNum (getField r "bgp_keepalive"), actNum (getField r "bgp_hold") with
     | some ka, some hold =>
       if hold < 3 * ka then [Suggestion.bgpTimers hold ka] else []
     | _, _ => [])

/-- Coarse uptime rule: integer uptime_days < 1. -/
def uptimeHints (r : Record) : List Suggestion :=
  match (getField r "uptime_days").bind Value.asInt with
  | some d => if d < 1 then [Suggestion.recentReboot] else []
  | none => []

/-- Healthcheck CPU rules: at/over threshold, else nearing (>= 0.9·thr). -/
def cpuHints (r : Record) : List Suggestion :=
  match actNum (getField r "hc_cpu_1min"), actNum (getField r "hc_cpu_threshold") with
  | some c1, some thr =>
    if thr ≤ c1 then [Suggestion.cpuAtThreshold c1 thr]
    else if (9 / 10) * thr ≤ c1 then [Suggestion.cpuNearThreshold c1 thr]
    else []
  | _, _ => []

/-- Healthcheck memory rule: hc_mem_util >= hc_mem_threshold. -/
def memUtilHints (r : Record) : List Suggestion :=
  match actNum (getField r "hc_mem_util"), actNum (getField r "hc_mem_threshold") with
  | some u, some t => if t ≤ u then [Suggestion.memUtilHigh u t] else []
  | _, _ => []

/-- Healthcheck uptime rule: hc_uptime_min below its minimum threshold. -/
def upMinHints (r : Record) : List Suggestion :=
  match actNum (getField r "hc_uptime_min"),
        actNum (getField r "hc_uptime_min_threshold") with
  | some u, some t =>
    if u < t then [Suggestion.uptimeBelowSlo (pyTrunc u) (pyTrunc t)] else []
  | _, _ => []

/-- Environment-temperature rule: hc_env_over > 0, with or without the
current/threshold values. -/
def envHints (r : Record) : List Suggestion :=
  match actNum (getField r "hc_env_over") with
  | some o =>
    if 0 < o then
      match actNum (getField r "hc_env_temp"),
            actNum (getField r "hc_env_temp_threshold") with
      | some cur, some thr => [Suggestion.envTempHigh (some (cur, thr))]
      | _, _ => [Suggestion.envTempHigh none]
    else []
  | none => []

/-- Power rule: hc_power_ok == 0. -/
def powerHints (r : Record) : List Suggestion :=
  match actNum (getField r "hc_power_ok") with
  | some p => if p = 0 then [Suggestion.powerNotOk] else []
  | none => []

/-- Fan rule: a truthy lowered status outside the accepted set. -/
def fansHints (r : Record) : List Suggestion :=
  let fs := pyLower (strOf (getField r "hc_fans_status"))
  if fs ≠ "" ∧ fs ∉ (["ok", "pass", "supported", "notsupported"] : List String)
  then [Suggestion.fansBad fs] else []

/-- All specific rules of suggest_actions concatenated in source order. -/
def baseHints (r : Record) : List Suggestion :=
  licHints r ++ memHints r ++ ifaceHints r ++ bgpHints r ++ uptimeHints r
    ++ cpuHints r ++ memUtilHints r ++ upMinHints r ++ envHints r ++ powerHints r
    ++ fansHints r

/-- Per-record rule pass of actions.suggest_actions: the specific rules, and
the generic health-check-failure hint only when the roll-up is FAIL and no
specific rule fired. -/
def suggestFor (r : Record) : List Suggestion :=
  if pyUpper (strOf (getField r "hc_result")) = "FAIL" ∧ baseHints r = []
  then baseHints r ++ [Suggestion.healthFail] else baseHints r

/-- The value stored for a host: `sug or [baseline]`. -/
def entryFor (r : Record) : List Suggestion :=
  if (suggestFor r).isEmpty then [Suggestion.monitorBaseline] else suggestFor r


/-- host = r.get("host", "unknown").  A dict key may be any scalar. -/
def hostKey (r : Record) : Value :=
  (getField r "host").getD (.str "unknown" none)

/-- Python `d[k] = v` on the per-host dict: overwrite in place or append. -/
def dictSet : List (Value × List Suggestion) → Value → List Suggestion →
    List (Value × List Suggestion)
  | [], k, v => [(k, v)]
  | (k1, v1) :: t, k, v =>
    if k1 = k then (k, v) :: t else (k1, v1) :: dictSet t k v

/-- actions.suggest_actions: per-host suggestion lists, with the baseline
monitor message substituted when no rule fires for a host. -/
def suggest_actions (rows : List Record) : List (Value × List Suggestion) :=
  rows.foldl (fun acc r => dictSet acc (hostKey r) (entryFor r)) []

/-- rule_flags of app.index: license expired, or >40% of interfaces disabled
(ratio < 0.6 with total > 0, coded defaults 0 and 1.0 for absent fields), or
memory >= 85.  A present value that Python could not compare numerically
(TypeError) is outside the modelled input space. -/
def ruleFlag (r : Record) : Bool :=
  pyEqOne (getField r "license_expired")
  || (decide (0 < (actNum (getField r "iface_total")).getD 0)
      && decide ((actNum (getField r "iface_enabled_ratio")).getD 1 < 3 / 5))
  || ((getField r "mem_used_pct").isSome
      && decide (85 ≤ (actNum (getField r "mem_used_pct")).getD 0))

/-- Detection portion of app.index: anomalies, feature names and scores as
the page renders them (scores become None on the rule-based fallback). -/
structure IndexView where
  anomalies : List Record
  features : List String
  scores : Option (List ℚ)
  rowsOut : List Record
  deriving DecidableEq, Repr

/-- app.index detection flow: IsolationForest first (contamination 0.20,
random_state 42); if it returns nothing, the secondary rule-based pass on
the raw records. -/
def indexDetect (learner : Option Learner) (rows : List Record) : IndexView :=
  if rows.isEmpty then ⟨[], [], some [], rows⟩
  else
    let d := detect_outliers_iforest learner rows (1 / 5) 42
    if d.anomalies.isEmpty then
      ⟨d.rowsOut.filter ruleFlag,
       ["license_expired", "iface_enabled_ratio", "mem_used_pct"], none, d.rowsOut⟩
    else ⟨d.anomalies, d.featNames, some d.scores, d.rowsOut⟩

/-! Helper lemmas about the stable sort, Python rounding, and clamping. -/

lemma pySorted_sorted (l : List ℚ) : List.Sorted (fun a b : ℚ => a ≤ b) (pySorted l) :=
  List.sorted_insertionSort _ l

lemma pySorted_perm (l : List ℚ) : (pySorted l).Perm l :=
  List.perm_insertionSort _ l

lemma pySorted_length (l : List ℚ) : (pySorted l).length = l.length :=
  (pySorted_perm l).length_eq

lemma pySorted_mem {l : List ℚ} {x : ℚ} : x ∈ pySorted l ↔ x ∈ l :=
  (pySorted_perm l).mem_iff

lemma sorted_getD_mono {l : List ℚ} (hs : List.Sorted (fun a b : ℚ => a ≤ b) l)
    {i j : ℕ} (hij : i ≤ j) (hj : j < l.length) : l.getD i 0 ≤ l.getD j 0 := by
  have hi : i < l.length := lt_of_le_of_lt hij hj
  rw [List.getD_eq_getElem l 0 hi, List.getD_eq_getElem l 0 hj]
  exact List.Sorted.rel_get_of_le hs (a := ⟨i, hi⟩) (b := ⟨j, hj⟩) hij

lemma sorted_head_le {l : List ℚ} (hs : List.Sorted (fun a b : ℚ => a ≤ b) l)
    {x : ℚ} (hx : x ∈ l) : l.getD 0 0 ≤ x := by
  cases l with
  | nil => cases hx
  | cons a t =>
    rcases List.mem_cons.mp hx with h | h
    · simp [h]
    · simpa using (List.sorted_cons.mp hs).1 x h

lemma le_sorted_last {l : List ℚ} (hs : List.Sorted (fun a b : ℚ => a ≤ b) l)
    {x : ℚ} (hx : x ∈ l) : x ≤ l.getD (l.length - 1) 0 := by
  obtain ⟨i, hi, rfl⟩ := List.mem_iff_getElem.mp hx
  have := sorted_getD_mono hs (Nat.le_pred_of_lt hi)
    (Nat.sub_lt (Nat.zero_lt_of_lt hi) one_pos)
  rwa [List.getD_eq_getElem l 0 hi] at this

lemma getD_head_mem {l : List ℚ} (hl : l ≠ []) : l.getD 0 0 ∈ l := by
  cases l with
  | nil => exact absurd rfl hl
  | cons a t => simp

lemma getD_last_mem {l : List ℚ} (hl : l ≠ []) : l.getD (l.length - 1) 0 ∈ l := by
  have hlen : l.length - 1 < l.length :=
    Nat.sub_lt (List.length_pos.mpr hl) one_pos
  rw [List.getD_eq_getElem l 0 hlen]
  exact List.getElem_mem hlen

lemma floor_le_pyRound (q : ℚ) : ⌊q⌋ ≤ pyRound q := by
  simp only [pyRound]
  split_ifs <;> omega

lemma pyRound_le_ceil (q : ℚ) : pyRound q ≤ ⌈q⌉ := by
  have hfc : ⌊q⌋ ≤ ⌈q⌉ := Int.floor_le_ceil q
  have hfrac : ¬(q - (⌊q⌋ : ℚ) < 1 / 2) → ⌊q⌋ + 1 ≤ ⌈q⌉ := by
    intro h
    have h0 : (0 : ℚ) < q - (⌊q⌋ : ℚ) := lt_of_lt_of_le (by norm_num) (not_lt.mp h)
    have : (⌊q⌋ : ℚ) < q := by linarith
    have hlt : (⌊q⌋ : ℚ) < (⌈q⌉ : ℚ) := lt_of_lt_of_le this (Int.le_ceil q)
    exact_mod_cast Int.lt_iff_add_one_le.mp (by exact_mod_cast hlt)
  simp only [pyRound]
  split_ifs with h1 h2 h3
  · exact hfc
  · exact hfrac (by intro hc; exact absurd hc h1)
  · exact hfc
  · exact hfrac (by intro hc; exact absurd hc h1)

lemma pyRound_nonneg {q : ℚ} (hq : 0 ≤ q) : 0 ≤ pyRound q :=
  le_trans (Int.floor_nonneg.mpr hq) (floor_le_pyRound q)

lemma one_le_topKCount (n : ℕ) (c : ℚ) : 1 ≤ topKCount n c := le_max_left 1 _

lemma topKCount_le (n : ℕ) (c : ℚ) (hn : 1 ≤ n) (hc : c ≤ 1 / 2) :
    topKCount n c ≤ n := by
  have hcast : ((n : ℚ)) * c ≤ (n : ℚ) := by
    have h0 : (0 : ℚ) ≤ (n : ℚ) := by positivity
    nlinarith
  have h2 : ⌈(n : ℚ) * c⌉ ≤ (n : ℤ) := Int.ceil_le.mpr (by exact_mod_cast hcast)
  have h3 : (pyRound ((n : ℚ) * c)).toNat ≤ n :=
    Int.toNat_le.mpr (le_trans (pyRound_le_ceil _) h2)
  exact max_le hn h3

lemma clampContamination_ge (c : ℚ) : 1 / 100 ≤ clampContamination c :=
  le_max_left _ _

lemma clampContamination_le (c : ℚ) : clampContamination c ≤ 1 / 2 :=
  max_le (by norm_num) (min_le_left _ _)

lemma clampContamination_idem (c : ℚ) :
    clampContamination (clampContamination c) = clampContamination c := by
  unfold clampContamination
  rw [min_eq_right (max_le (by norm_num) (min_le_left _ _)),
      max_eq_right (le_max_left _ _)]

lemma rankedIdxs_sorted (score : ℕ → ℚ) (n : ℕ) :
    List.Sorted (fun i j => score i ≤ score j) (rankedIdxs score n) := by
  haveI : IsTotal ℕ (fun i j => score i ≤ score j) := ⟨fun a b => le_total _ _⟩
  haveI : IsTrans ℕ (fun i j => score i ≤ score j) :=
    ⟨fun a b c hab hbc => le_trans hab hbc⟩
  exact List.sorted_insertionSort _ _

lemma rankedIdxs_perm (score : ℕ → ℚ) (n : ℕ) :
    (rankedIdxs score n).Perm (List.range n) :=
  List.perm_insertionSort _ _

lemma rankedIdxs_length (score : ℕ → ℚ) (n : ℕ) :
    (rankedIdxs score n).length = n := by
  rw [(rankedIdxs_perm score n).length_eq, List.length_range]

lemma rankedIdxs_mem {score : ℕ → ℚ} {n i : ℕ} (h : i ∈ rankedIdxs score n) :
    i < n :=
  List.mem_range.mp ((rankedIdxs_perm score n).mem_iff.mp h)

/-! Structural lemmas about the feature matrix and the detector pipeline. -/

/-- Median as the specification words it: sort the present values and take
the middle element for an odd count, the average of the two middle elements
for an even count. -/
def specMedian (l : List ℚ) : ℚ :=
  let s := pySorted l
  if s.length % 2 = 1 then s.getD (s.length / 2) 0
  else (s.getD (s.length / 2 - 1) 0 + s.getD (s.length / 2) 0) / 2

lemma colMedian_eq_specMedian (rows : List Record) (j : ℕ)
    (h : presentVals rows j ≠ []) :
    colMedian rows j = some (specMedian (presentVals rows j)) := by
  have hpos : 0 < (presentVals rows j).length := List.length_pos.mpr h
  have hlen : ¬(pySorted (presentVals rows j)).length = 0 := by
    rw [pySorted_length]; omega
  simp only [colMedian, specMedian, sortedVals]
  rw [if_neg hlen]
  split_ifs with hpar
  · rfl
  · rw [Option.some_inj]; ring

lemma keptIdxs_nil : keptIdxs ([] : List Record) = [] := by decide

lemma bfm_fst (rows : List Record) :
    (buildFeatureMatrix rows).1 =
      rows.map (fun r => (keptIdxs rows).map (cellValue rows r)) := by
  unfold buildFeatureMatrix
  cases rows with
  | nil => simp
  | cons a t => simp

lemma bfm_snd (rows : List Record) :
    (buildFeatureMatrix rows).2 = (keptIdxs rows).map (fun j => candidates.getD j "") := by
  unfold buildFeatureMatrix
  cases rows with
  | nil => simp [keptIdxs_nil]
  | cons a t => simp

lemma bfm_fst_length (rows : List Record) :
    (buildFeatureMatrix rows).1.length = rows.length := by
  rw [bfm_fst, List.length_map]

lemma bfm_fst_getD (rows : List Record) {i : ℕ} (hi : i < rows.length) :
    (buildFeatureMatrix rows).1.getD i [] =
      (keptIdxs rows).map (cellValue rows (rows.getD i [])) := by
  rw [bfm_fst,
      List.getD_eq_getElem _ _ (by simpa using hi),
      List.getElem_map, List.getD_eq_getElem _ _ hi]

lemma rows_ne_nil_of_feats {rows : List Record}
    (h : (buildFeatureMatrix rows).2 ≠ []) : rows ≠ [] := by
  intro hr
  subst hr
  rw [bfm_snd, keptIdxs_nil] at h
  exact h rfl

lemma keptIdxs_ne_nil_of_feats {rows : List Record}
    (h : (buildFeatureMatrix rows).2 ≠ []) : keptIdxs rows ≠ [] := by
  intro hk
  rw [bfm_snd, hk] at h
  exact h rfl

lemma bfm_fst_ne_nil {rows : List Record}
    (h : (buildFeatureMatrix rows).2 ≠ []) : (buildFeatureMatrix rows).1 ≠ [] := by
  rw [bfm_fst]
  simpa [List.map_eq_nil_iff] using rows_ne_nil_of_feats h

lemma bfm_row0_ne_nil {rows : List Record}
    (h : (buildFeatureMatrix rows).2 ≠ []) :
    (buildFeatureMatrix rows).1.getD 0 [] ≠ [] := by
  have h0 : 0 < rows.length := List.length_pos.mpr (rows_ne_nil_of_feats h)
  rw [bfm_fst_getD rows h0]
  simpa [List.map_eq_nil_iff] using keptIdxs_ne_nil_of_feats h

lemma detect_eq_main (L : Learner) (rows : List Record) (c : ℚ) (seed : ℤ)
    (hfeats : (buildFeatureMatrix rows).2 ≠ []) :
    detect_outliers_iforest (some L) rows c seed = detectMain L rows c seed := by
  have hA : rows.isEmpty = false := by
    simpa [List.isEmpty_iff] using rows_ne_nil_of_feats hfeats
  have hB : ((buildFeatureMatrix rows).2).isEmpty = false := by
    simpa [List.isEmpty_iff] using hfeats
  have hC : ((buildFeatureMatrix rows).1).isEmpty = false := by
    simpa [List.isEmpty_iff] using bfm_fst_ne_nil hfeats
  have hD : (((buildFeatureMatrix rows).1).getD 0 []).isEmpty = false := by
    simpa [List.isEmpty_iff] using bfm_row0_ne_nil hfeats
  unfold detect_outliers_iforest
  rw [hA, hB, hC, hD]
  simp

lemma detect_degenerate (learner : Option Learner) (rows : List Record)
    (c : ℚ) (seed : ℤ)
    (h : learner = none ∨ rows = [] ∨ (buildFeatureMatrix rows).2 = []) :
    detect_outliers_iforest learner rows c seed = ⟨[], [], [], rows⟩ := by
  rcases h with h | h | h
  · subst h; rfl
  · subst h; cases learner <;> rfl
  · cases learner with
    | none => rfl
    | some L =>
      unfold detect_outliers_iforest
      by_cases hr : rows = []
      · subst hr; rfl
      · simp [List.isEmpty_iff, hr, h]

lemma getField_cons (k1 : String) (v1 : Value) (t : List (String × Value))
    (k : String) :
    getField ((k1, v1) :: t) k = if k1 = k then some v1 else getField t k := by
  unfold getField
  by_cases h : k1 = k
  · rw [List.find?_cons_of_pos _ (by simpa using h), if_pos h]
    rfl
  · rw [List.find?_cons_of_neg _ (by simpa using h), if_neg h]

lemma getField_setField_self (r : Record) (k : String) (v : Value) :
    getField (setField r k v) k = some v := by
  induction r with
  | nil => simp [setField, getField]
  | cons p t ih =>
    obtain ⟨k1, v1⟩ := p
    simp only [setField]
    split_ifs with h
    · rw [getField_cons, if_pos rfl]
    · rw [getField_cons, if_neg h]
      exact ih

lemma getField_setField_other (r : Record) (k k2 : String) (v : Value)
    (h : k2 ≠ k) : getField (setField r k v) k2 = getField r k2 := by
  induction r with
  | nil =>
    rw [show setField [] k v = [(k, v)] from rfl, getField_cons,
        if_neg (fun he => h he.symm)]
  | cons p t ih =>
    obtain ⟨k1, v1⟩ := p
    simp only [setField]
    split_ifs with hk
    · subst hk
      rw [getField_cons, getField_cons, if_neg (fun he => h he.symm),
          if_neg (fun he => h he.symm)]
    · rw [getField_cons, getField_cons]
      split_ifs with hk2
      · rfl
      · exact ih

lemma dictSet_mem {m : List (Value × List Suggestion)} {k : Value}
    {v : List Suggestion} {p : Value × List Suggestion}
    (hp : p ∈ dictSet m k v) : p.2 = v ∨ p ∈ m := by
  induction m with
  | nil =>
    simp only [dictSet, List.mem_singleton] at hp
    rcases hp with rfl
    exact Or.inl rfl
  | cons q t ih =>
    obtain ⟨k1, v1⟩ := q
    simp only [dictSet] at hp
    split_ifs at hp with h
    · rcases List.mem_cons.mp hp with rfl | hp2
      · exact Or.inl rfl
      · exact Or.inr (List.mem_cons_of_mem _ hp2)
    · rcases List.mem_cons.mp hp with rfl | hp2
      · exact Or.inr (List.mem_cons_self _ _)
      · rcases ih hp2 with h2 | h2
        · exact Or.inl h2
        · exact Or.inr (List.mem_cons_of_mem _ h2)

lemma attachScores_length (score : ℕ → ℚ) (idxs : List ℕ) (s : ℕ)
    (rows : List Record) :
    (attachScores score idxs s rows).length = rows.length := by
  induction rows generalizing s with
  | nil => rfl
  | cons r t ih => simp [attachScores, ih]

lemma attachScores_getD (score : ℕ → ℚ) (idxs : List ℕ) (s : ℕ)
    (rows : List Record) {i : ℕ} (hi : i < rows.length) :
    (attachScores score idxs s rows).getD i [] =
      (if (s + i) ∈ idxs
       then setField (rows.getD i []) "_iforest_score" (.float (score (s + i)))
       else rows.getD i []) := by
  induction rows generalizing s i with
  | nil => cases hi
  | cons r t ih =>
    cases i with
    | zero => simp [attachScores]
    | succ n =>
      have hn : n < t.length := Nat.lt_of_succ_lt_succ hi
      have heq : s + (n + 1) = (s + 1) + n := by omega
      simp only [attachScores, List.getD_cons_succ, heq]
      exact ih (s + 1) hn

lemma detectPredIdxs_mem {L : Learner} {rows : List Record} {c : ℚ} {seed : ℤ}
    {i : ℕ} (h : i ∈ detectPredIdxs L rows c seed) : i < rows.length :=
  List.mem_range.mp (List.mem_filter.mp h).1

lemma detectIdxs_mem {L : Learner} {rows : List Record} {c : ℚ} {seed : ℤ}
    {i : ℕ} (h : i ∈ detectIdxs L rows c seed) : i < rows.length := by
  unfold detectIdxs at h
  split_ifs at h with hp
  · exact rankedIdxs_mem (List.mem_of_mem_take h)
  · exact detectPredIdxs_mem h

lemma detectIdxs_ne_nil (L : Learner) (rows : List Record) (c : ℚ) (seed : ℤ)
    (hrows : rows ≠ []) : detectIdxs L rows c seed ≠ [] := by
  have hn : 1 ≤ rows.length := List.length_pos.mpr hrows
  unfold detectIdxs
  split_ifs with hp
  · intro hnil
    have hlen := congrArg List.length hnil
    rw [List.length_take, rankedIdxs_length, List.length_nil] at hlen
    have h1 := one_le_topKCount rows.length (clampContamination c)
    omega
  · intro hnil
    rw [hnil] at hp
    exact hp rfl

/-! Percentile lemmas for the IQR detector. -/

lemma left_le_interp {a b w : ℚ} (hab : a ≤ b) (h0 : 0 ≤ w) (h1 : w ≤ 1) :
    a ≤ a * (1 - w) + b * w := by nlinarith

lemma interp_le_right {a b w : ℚ} (hab : a ≤ b) (h0 : 0 ≤ w) (h1 : w ≤ 1) :
    a * (1 - w) + b * w ≤ b := by nlinarith

lemma iqrNums_sorted (values : List (Option Value)) :
    List.Sorted (fun a b : ℚ => a ≤ b) (iqrNums values) :=
  pySorted_sorted _

lemma pctOf_bounds (nums : List ℚ)
    (hs : List.Sorted (fun a b : ℚ => a ≤ b) nums)
    (p : ℚ) (hp0 : 0 ≤ p) (hp1 : p ≤ 1) (hn : 1 ≤ nums.length) :
    nums.getD (⌊((nums.length : ℚ) - 1) * p⌋).toNat 0 ≤ pctOf nums p ∧
    pctOf nums p ≤ nums.getD (⌈((nums.length : ℚ) - 1) * p⌉).toNat 0 := by
  have hn1 : (1 : ℚ) ≤ (nums.length : ℚ) := by exact_mod_cast hn
  have hidx0 : 0 ≤ ((nums.length : ℚ) - 1) * p := by nlinarith
  have hidxle : ((nums.length : ℚ) - 1) * p ≤ (nums.length : ℚ) - 1 := by nlinarith
  have hhi : ⌈((nums.length : ℚ) - 1) * p⌉ ≤ (nums.length : ℤ) - 1 := by
    apply Int.ceil_le.mpr
    push_cast
    linarith
  have hhiNat : (⌈((nums.length : ℚ) - 1) * p⌉).toNat < nums.length := by omega
  have hloNat : (⌊((nums.length : ℚ) - 1) * p⌋).toNat ≤
      (⌈((nums.length : ℚ) - 1) * p⌉).toNat := by
    have := Int.floor_le_ceil (((nums.length : ℚ) - 1) * p)
    omega
  have hw0 : 0 ≤ ((nums.length : ℚ) - 1) * p - (⌊((nums.length : ℚ) - 1) * p⌋ : ℚ) := by
    linarith [Int.floor_le (((nums.length : ℚ) - 1) * p)]
  have hw1 : ((nums.length : ℚ) - 1) * p - (⌊((nums.length : ℚ) - 1) * p⌋ : ℚ) ≤ 1 := by
    linarith [Int.lt_floor_add_one (((nums.length : ℚ) - 1) * p)]
  have hab := sorted_getD_mono hs hloNat hhiNat
  simp only [pctOf]
  exact ⟨left_le_interp hab hw0 hw1, interp_le_right hab hw0 hw1⟩

lemma iqrQ1_le_iqrQ3 (values : List (Option Value))
    (h4 : 4 ≤ (iqrNums values).length) :
    iqrQ1 values ≤ iqrQ3 values := by
  have hs := iqrNums_sorted values
  have hn4 : (4 : ℚ) ≤ ((iqrNums values).length : ℚ) := by exact_mod_cast h4
  have hu := (pctOf_bounds (iqrNums values) hs (1 / 4) (by norm_num) (by norm_num)
    (by omega)).2
  have hl := (pctOf_bounds (iqrNums values) hs (3 / 4) (by norm_num) (by norm_num)
    (by omega)).1
  have hmid : (⌈(((iqrNums values).length : ℚ) - 1) * (1 / 4)⌉).toNat ≤
      (⌊(((iqrNums values).length : ℚ) - 1) * (3 / 4)⌋).toNat := by
    have h1 : ⌈(((iqrNums values).length : ℚ) - 1) * (1 / 4)⌉ ≤
        ⌊(((iqrNums values).length : ℚ) - 1) * (1 / 4)⌋ + 1 :=
      Int.ceil_le_floor_add_one _
    have h2 : (⌊(((iqrNums values).length : ℚ) - 1) * (1 / 4)⌋ : ℤ) + 1 ≤
        ⌊(((iqrNums values).length : ℚ) - 1) * (3 / 4)⌋ := by
      rw [show (⌊(((iqrNums values).length : ℚ) - 1) * (1 / 4)⌋ : ℤ) + 1 =
          ⌊(((iqrNums values).length : ℚ) - 1) * (1 / 4) + 1⌋ from
            (Int.floor_add_one _).symm]
      apply Int.floor_le_floor
      nlinarith
    omega
  have hfl : (⌊(((iqrNums values).length : ℚ) - 1) * (3 / 4)⌋).toNat <
      (iqrNums values).length := by
    have : ⌊(((iqrNums values).length : ℚ) - 1) * (3 / 4)⌋ ≤
        ((iqrNums values).length : ℤ) - 1 := by
      apply Int.le_sub_one_of_lt
      apply Int.floor_lt.mpr
      push_cast
      nlinarith
    omega
  calc iqrQ1 values ≤ _ := hu
    _ ≤ _ := sorted_getD_mono hs hmid hfl
    _ ≤ iqrQ3 values := hl

lemma iqrWidth_pos (values : List (Option Value)) : 0 < iqrWidth values :=
  lt_of_lt_of_le (by norm_num) (le_max_right _ _)

lemma iqrLo_le_iqrHi (values : List (Option Value)) (k : ℚ)
    (h4 : 4 ≤ (iqrNums values).length) (hk : 0 ≤ k) :
    iqrLo values k ≤ iqrHi values k := by
  have h1 := iqrQ1_le_iqrQ3 values h4
  have h2 := iqrWidth_pos values
  unfold iqrLo iqrHi
  nlinarith

lemma iqrFlags_getD (values : List (Option Value)) (k : ℚ) (i : ℕ)
    (h4 : ¬(iqrNums values).length < 4) :
    (iqrFlags values k).getD i false =
      (match (values.getD i none).bind Value.asNum with
       | none => false
       | some q => !(decide (iqrLo values k ≤ q) && decide (q ≤ iqrHi values k))) := by
  unfold iqrFlags
  rw [if_neg h4]
  by_cases hi : i < values.length
  · rw [List.getD_eq_getElem _ _ (by simpa using hi), List.getElem_map,
        List.getD_eq_getElem _ _ hi]
  · rw [List.getD_eq_default _ _ (by simpa using Nat.le_of_not_lt hi),
        List.getD_eq_default _ _ (Nat.le_of_not_lt hi)]
    rfl

/-! Concrete fixtures used to instantiate the theorems. -/

/-- A learner instance satisfying the contract: never flags a row and scores
each row by its index. -/
def trivialLearner : Learner := ⟨fun _ _ _ _ => 1, fun _ _ _ i => (i : ℚ)⟩

/-- Witness batch: two hosts with differing memory plus one record missing
the field. -/
def wr1 : Record := [("host", .str "r1" none), ("mem_used_pct", .int 10)]

/-- Second witness record. -/
def wr2 : Record := [("host", .str "r2" none), ("mem_used_pct", .int 90)]

/-- Third witness record, with no memory reading. -/
def wr3 : Record := [("host", .str "r3" none)]

/-- The three-record witness batch. -/
def wBatch : List Record := [wr1, wr2, wr3]

/-- Witness column for the IQR detector: five numeric entries, Q1 lands
exactly on the value 2. -/
def iqrWitnessVals : List (Option Value) :=
  [some (.int 1), some (.int 2), some (.int 3), some (.int 4), some (.int 100)]

lemma mem_keptIdxs {rows : List Record} {j : ℕ} :
    j ∈ keptIdxs rows ↔ j < candidates.length ∧ keepMask rows j = true := by
  unfold keptIdxs
  rw [List.mem_filter, List.mem_range]

/-- C4: for every value list with at least 4 numeric entries and every
nonnegative spread factor k, the IQR bounds satisfy Q1 ≤ Q3 and lo ≤ hi, and
an entry whose value is exactly Q1 or exactly Q3 is never flagged. -/
theorem iqr_bounds_sound (values : List (Option Value)) (k : ℚ)
    (h4 : 4 ≤ (iqrNums values).length) (hk : 0 ≤ k) :
    iqrQ1 values ≤ iqrQ3 values ∧
    iqrLo values k ≤ iqrHi values k ∧
    (∀ i q, (values.getD i none).bind Value.asNum = some q →
      (q = iqrQ1 values ∨ q = iqrQ3 values) →
      (iqrFlags values k).getD i false = false) := by
  have hq := iqrQ1_le_iqrQ3 values h4
  have hw := iqrWidth_pos values
  refine ⟨hq, iqrLo_le_iqrHi values k h4 hk, ?_⟩
  intro i q hv hq13
  rw [iqrFlags_getD values k i (by omega), hv]
  have h1 : iqrLo values k ≤ q := by
    rcases hq13 with rfl | rfl
    · unfold iqrLo; nlinarith
    · unfold iqrLo; nlinarith
  have h2 : q ≤ iqrHi values k := by
    rcases hq13 with rfl | rfl
    · unfold iqrHi; nlinarith
    · unfold iqrHi; nlinarith
  simp [h1, h2]

/-- C4 witness: the concrete column [1, 2, 3, 4, 100] with k = 1.5, whose Q1
sits exactly on the entry 2. -/
theorem iqr_bounds_sound_witness :
    (4 ≤ (iqrNums iqrWitnessVals).length ∧ (0 : ℚ) ≤ 3 / 2) ∧
    (iqrQ1 iqrWitnessVals ≤ iqrQ3 iqrWitnessVals ∧
     iqrLo iqrWitnessVals (3 / 2) ≤ iqrHi iqrWitnessVals (3 / 2) ∧
     (∀ i q, (iqrWitnessVals.getD i none).bind Value.asNum = some q →
       (q = iqrQ1 iqrWitnessVals ∨ q = iqrQ3 iqrWitnessVals) →
       (iqrFlags iqrWitnessVals (3 / 2)).getD i false = false)) :=
  ⟨⟨by decide, by decide⟩,
   iqr_bounds_sound iqrWitnessVals (3 / 2) (by decide) (by decide)⟩

/-- C2: a candidate column's name is retained exactly when the column has
present values whose minimum and maximum differ beyond floating tolerance; a
column with no present values or with an (almost) constant value never
appears in the retained-name list. -/
theorem kept_columns_have_variance (rows : List Record) (j : ℕ)
    (hj : j < candidates.length) :
    candidates.getD j "" ∈ (buildFeatureMatrix rows).2 ↔
      ∃ a ∈ presentVals rows j, ∃ b ∈ presentVals rows j,
        (∀ x ∈ presentVals rows j, a ≤ x ∧ x ≤ b) ∧ isclose a b = false := by
  have hnodup : candidates.Nodup := by decide
  have hstep1 : candidates.getD j "" ∈ (buildFeatureMatrix rows).2 ↔
      j ∈ keptIdxs rows := by
    rw [bfm_snd]
    constructor
    · intro h
      obtain ⟨j2, hj2, he⟩ := List.mem_map.mp h
      have hj2lt : j2 < candidates.length := (mem_keptIdxs.mp hj2).1
      have hget : candidates.get ⟨j2, hj2lt⟩ = candidates.get ⟨j, hj⟩ := by
        rw [List.get_eq_getElem, List.get_eq_getElem,
            ← List.getD_eq_getElem candidates "" hj2lt,
            ← List.getD_eq_getElem candidates "" hj]
        exact he
      have hjj : j2 = j := by
        have := (List.Nodup.get_inj_iff hnodup).mp hget
        exact congrArg Fin.val this
      rwa [hjj] at hj2
    · intro h
      exact List.mem_map.mpr ⟨j, h, rfl⟩
  have hstep2 : keepMask rows j = true ↔
      ∃ a ∈ presentVals rows j, ∃ b ∈ presentVals rows j,
        (∀ x ∈ presentVals rows j, a ≤ x ∧ x ≤ b) ∧ isclose a b = false := by
    simp only [keepMask, Bool.and_eq_true, Bool.not_eq_true']
    constructor
    · rintro ⟨hne, hic⟩
      have hne2 : sortedVals rows j ≠ [] := by
        simpa [List.isEmpty_iff] using hne
      have hs := pySorted_sorted (presentVals rows j)
      refine ⟨(sortedVals rows j).getD 0 0, pySorted_mem.mp (getD_head_mem hne2),
        (sortedVals rows j).getD ((sortedVals rows j).length - 1) 0,
        pySorted_mem.mp (getD_last_mem hne2), ?_, hic⟩
      intro x hx
      have hx2 : x ∈ sortedVals rows j := pySorted_mem.mpr hx
      exact ⟨sorted_head_le hs hx2, le_sorted_last hs hx2⟩
    · rintro ⟨a, ha, b, hb, hbounds, hic⟩
      have hne : presentVals rows j ≠ [] := List.ne_nil_of_mem ha
      have hne2 : sortedVals rows j ≠ [] := by
        intro h0
        apply hne
        have hl := congrArg List.length h0
        rw [sortedVals, pySorted_length] at hl
        exact List.length_eq_zero.mp hl
      have hs := pySorted_sorted (presentVals rows j)
      have hhead : (sortedVals rows j).getD 0 0 = a :=
        le_antisymm (sorted_head_le hs (pySorted_mem.mpr ha))
          (hbounds _ (pySorted_mem.mp (getD_head_mem hne2))).1
      have hlast : (sortedVals rows j).getD ((sortedVals rows j).length - 1) 0 = b :=
        le_antisymm (hbounds _ (pySorted_mem.mp (getD_last_mem hne2))).2
          (le_sorted_last hs (pySorted_mem.mpr hb))
      refine ⟨by simpa [List.isEmpty_iff] using hne2, ?_⟩
      rw [hhead, hlast]
      exact hic
  rw [hstep1, mem_keptIdxs, and_iff_right hj]
  exact hstep2

/-- C2 witness: in the three-record batch the memory column (candidate 0) is
retained, with 10 and 90 as its extreme present values. -/
theorem kept_columns_have_variance_witness :
    (0 < candidates.length) ∧
    (candidates.getD 0 "" ∈ (buildFeatureMatrix wBatch).2 ↔
      ∃ a ∈ presentVals wBatch 0, ∃ b ∈ presentVals wBatch 0,
        (∀ x ∈ presentVals wBatch 0, a ≤ x ∧ x ≤ b) ∧ isclose a b = false) :=
  ⟨by decide, kept_columns_have_variance wBatch 0 (by decide)⟩

/-- C3: every matrix row maps the kept columns through cellValue; for a kept
column, a missing raw value is written as that column's median over present
values (sorted middle for an odd count, average of the two middles for an
even count) and a present raw value is written as-is. -/
theorem imputed_cells_are_medians (rows : List Record) (i j : ℕ)
    (hi : i < rows.length) (hj : j ∈ keptIdxs rows) :
    (buildFeatureMatrix rows).1.getD i [] =
      (keptIdxs rows).map (cellValue rows (rows.getD i [])) ∧
    ((rawRow (rows.getD i [])).getD j none = none →
      cellValue rows (rows.getD i []) j = specMedian (presentVals rows j)) ∧
    (∀ v, (rawRow (rows.getD i [])).getD j none = some v →
      cellValue rows (rows.getD i []) j = v) := by
  refine ⟨bfm_fst_getD rows hi, ?_, ?_⟩
  · intro hmiss
    have hmask : keepMask rows j = true := (mem_keptIdxs.mp hj).2
    have hne : presentVals rows j ≠ [] := by
      intro h0
      have hempty : sortedVals rows j = [] := by
        rw [sortedVals, h0]
        rfl
      simp [keepMask, hempty] at hmask
    unfold cellValue
    rw [hmiss]
    rw [show ((none : Option ℚ).orElse fun _ => colMedian rows j) =
        colMedian rows j from rfl]
    rw [colMedian_eq_specMedian rows j hne]
    rfl
  · intro v hv
    unfold cellValue
    rw [hv]
    rfl

/-- C3 witness: in the three-record batch, the record with no memory reading
receives the median 50 of the present values 10 and 90, and a present value
10 is written as-is. -/
theorem imputed_cells_are_medians_witness :
    (wBatch.length = 3 ∧ 0 ∈ keptIdxs wBatch) ∧
    ((buildFeatureMatrix wBatch).1.getD 2 [] =
      (keptIdxs wBatch).map (cellValue wBatch (wBatch.getD 2 [])) ∧
     ((rawRow (wBatch.getD 2 [])).getD 0 none = none →
       cellValue wBatch (wBatch.getD 2 []) 0 = specMedian (presentVals wBatch 0)) ∧
     (∀ v, (rawRow (wBatch.getD 2 [])).getD 0 none = some v →
       cellValue wBatch (wBatch.getD 2 []) 0 = v)) ∧
    cellValue wBatch (wBatch.getD 2 []) 0 = 50 ∧
    (rawRow (wBatch.getD 2 [])).getD 0 none = none :=
  ⟨⟨by decide, by decide⟩,
   imputed_cells_are_medians wBatch 2 0 (by decide) (by decide),
   by decide, by decide⟩

/-- C1: when the learner's binary decisions flag no row of a non-degenerate
batch, the detector returns exactly max(1, round(N·c_clamped)) records - the
lowest-scored ones, taken from the full ascending ranking of all N scores -
together with those records' scores. -/
theorem iforest_zero_flag_fallback (L : Learner) (rows : List Record)
    (c : ℚ) (seed : ℤ)
    (hrows : rows ≠ []) (hfeats : (buildFeatureMatrix rows).2 ≠ [])
    (hnone : ∀ i < rows.length,
      L.predict (buildFeatureMatrix rows).1 (clampContamination c) seed i ≠ -1) :
    (detect_outliers_iforest (some L) rows c seed).anomalies.length =
      topKCount rows.length (clampContamination c) ∧
    (detect_outliers_iforest (some L) rows c seed).anomalies =
      ((rankedIdxs (detectScore L rows c seed) rows.length).take
        (topKCount rows.length (clampContamination c))).map
        (fun i => (detectRowsOut L rows c seed).getD i []) ∧
    List.Sorted (fun i j => detectScore L rows c seed i ≤ detectScore L rows c seed j)
      (rankedIdxs (detectScore L rows c seed) rows.length) ∧
    (rankedIdxs (detectScore L rows c seed) rows.length).Perm
      (List.range rows.length) ∧
    (detect_outliers_iforest (some L) rows c seed).scores =
      ((rankedIdxs (detectScore L rows c seed) rows.length).take
        (topKCount rows.length (clampContamination c))).map
        (detectScore L rows c seed) := by
  have hpred : detectPredIdxs L rows c seed = [] := by
    unfold detectPredIdxs
    rw [List.filter_eq_nil_iff]
    intro i hi
    simpa using hnone i (List.mem_range.mp hi)
  have hidxs : detectIdxs L rows c seed =
      (rankedIdxs (detectScore L rows c seed) rows.length).take
        (topKCount rows.length (clampContamination c)) := by
    unfold detectIdxs
    rw [hpred]
    rfl
  rw [detect_eq_main L rows c seed hfeats]
  simp only [detectMain]
  rw [hidxs]
  refine ⟨?_, rfl, rankedIdxs_sorted _ _, rankedIdxs_perm _ _, rfl⟩
  rw [List.length_map, List.length_take, rankedIdxs_length]
  have hK := topKCount_le rows.length (clampContamination c)
    (List.length_pos.mpr hrows) (clampContamination_le c)
  omega

/-- C1 witness: the three-record batch under a learner that flags nothing;
with contamination 0.2 the fallback returns the single lowest-scored row. -/
theorem iforest_zero_flag_fallback_witness :
    (wBatch ≠ [] ∧ (buildFeatureMatrix wBatch).2 ≠ [] ∧
      ∀ i < wBatch.length,
        trivialLearner.predict (buildFeatureMatrix wBatch).1
          (clampContamination (1 / 5)) 42 i ≠ -1) ∧
    ((detect_outliers_iforest (some trivialLearner) wBatch (1 / 5) 42).anomalies.length =
      topKCount wBatch.length (clampContamination (1 / 5)) ∧
     (detect_outliers_iforest (some trivialLearner) wBatch (1 / 5) 42).anomalies =
      ((rankedIdxs (detectScore trivialLearner wBatch (1 / 5) 42) wBatch.length).take
        (topKCount wBatch.length (clampContamination (1 / 5)))).map
        (fun i => (detectRowsOut trivialLearner wBatch (1 / 5) 42).getD i []) ∧
     List.Sorted (fun i j => detectScore trivialLearner wBatch (1 / 5) 42 i ≤
        detectScore trivialLearner wBatch (1 / 5) 42 j)
      (rankedIdxs (detectScore trivialLearner wBatch (1 / 5) 42) wBatch.length) ∧
     (rankedIdxs (detectScore trivialLearner wBatch (1 / 5) 42) wBatch.length).Perm
      (List.range wBatch.length) ∧
     (detect_outliers_iforest (some trivialLearner) wBatch (1 / 5) 42).scores =
      ((rankedIdxs (detectScore trivialLearner wBatch (1 / 5) 42) wBatch.length).take
        (topKCount wBatch.length (clampContamination (1 / 5)))).map
        (detectScore trivialLearner wBatch (1 / 5) 42)) :=
  ⟨⟨by decide, by decide, by decide⟩,
   iforest_zero_flag_fallback trivialLearner wBatch (1 / 5) 42
     (by decide) (by decide) (by decide)⟩

/-- C6: for an empty batch, a matrix with no retained column, or a missing
learner capability, the detector returns the empty-result shape with the
batch untouched, and on the degenerate-batch cases the result does not
depend on the learner at all (the learner is never consulted). -/
theorem iforest_degenerate_empty (learner : Option Learner) (rows : List Record)
    (c : ℚ) (seed : ℤ)
    (h : learner = none ∨ rows = [] ∨ (buildFeatureMatrix rows).2 = []) :
    detect_outliers_iforest learner rows c seed = ⟨[], [], [], rows⟩ ∧
    (rows = [] ∨ (buildFeatureMatrix rows).2 = [] →
      ∀ other : Option Learner,
        detect_outliers_iforest other rows c seed =
          detect_outliers_iforest learner rows c seed) := by
  refine ⟨detect_degenerate learner rows c seed h, ?_⟩
  intro h2 other
  rw [detect_degenerate other rows c seed (Or.inr h2),
      detect_degenerate learner rows c seed h]

/-- C6 witness: the missing-capability case on the concrete batch, which is
also learner-independent once the batch is emptied. -/
theorem iforest_degenerate_empty_witness :
    ((none : Option Learner) = none ∨ ([] : List Record) = [] ∨
      (buildFeatureMatrix ([] : List Record)).2 = []) ∧
    (detect_outliers_iforest none ([] : List Record) (1 / 10) 42 = ⟨[], [], [], []⟩ ∧
     (([] : List Record) = [] ∨ (buildFeatureMatrix ([] : List Record)).2 = [] →
       ∀ other : Option Learner,
         detect_outliers_iforest other ([] : List Record) (1 / 10) 42 =
           detect_outliers_iforest none ([] : List Record) (1 / 10) 42)) :=
  ⟨Or.inl rfl, iforest_degenerate_empty none [] (1 / 10) 42 (Or.inl rfl)⟩

/-- C8: the contamination actually used - for the learner configuration and
for the fallback count alike - is the input clamped into [0.01, 0.5]: a run
with any contamination equals the run with its clamp. -/
theorem contamination_always_clamped (learner : Option Learner)
    (rows : List Record) (c : ℚ) (seed : ℤ) :
    1 / 100 ≤ clampContamination c ∧ clampContamination c ≤ 1 / 2 ∧
    detect_outliers_iforest learner rows c seed =
      detect_outliers_iforest learner rows (clampContamination c) seed := by
  refine ⟨clampContamination_ge c, clampContamination_le c, ?_⟩
  cases learner with
  | none => rfl
  | some L =>
    unfold detect_outliers_iforest detectMain detectRowsOut detectIdxs
      detectPredIdxs detectScore
    rw [clampContamination_idem]

/-- C9: the detector mutates exactly the selected records - each gains the
single field _iforest_score holding its row score, every other field of a
flagged record and every field of a non-flagged record are unchanged - and
the returned anomalies are the mutated records at the selected indices. -/
theorem iforest_mutation_frame (L : Learner) (rows : List Record)
    (c : ℚ) (seed : ℤ) (hfeats : (buildFeatureMatrix rows).2 ≠ []) :
    (detect_outliers_iforest (some L) rows c seed).anomalies =
      (detectIdxs L rows c seed).map
        (fun i => (detect_outliers_iforest (some L) rows c seed).rowsOut.getD i []) ∧
    (detect_outliers_iforest (some L) rows c seed).rowsOut.length = rows.length ∧
    (∀ i, i < rows.length → i ∈ detectIdxs L rows c seed →
      getField ((detect_outliers_iforest (some L) rows c seed).rowsOut.getD i [])
          "_iforest_score" = some (.float (detectScore L rows c seed i)) ∧
      ∀ k2, k2 ≠ "_iforest_score" →
        getField ((detect_outliers_iforest (some L) rows c seed).rowsOut.getD i []) k2 =
          getField (rows.getD i []) k2) ∧
    (∀ i, i < rows.length → i ∉ detectIdxs L rows c seed →
      (detect_outliers_iforest (some L) rows c seed).rowsOut.getD i [] =
        rows.getD i []) := by
  rw [detect_eq_main L rows c seed hfeats]
  simp only [detectMain]
  refine ⟨trivial, attachScores_length _ _ _ _, ?_, ?_⟩
  · intro i hi hmem
    simp only [detectRowsOut]
    rw [attachScores_getD _ _ _ _ hi]
    simp only [Nat.zero_add]
    rw [if_pos hmem]
    exact ⟨getField_setField_self _ _ _,
      fun k2 hk2 => getField_setField_other _ _ _ _ hk2⟩
  · intro i hi hmem
    simp only [detectRowsOut]
    rw [attachScores_getD _ _ _ _ hi]
    simp only [Nat.zero_add]
    rw [if_neg hmem]

/-- C9 witness: the three-record batch, trivial learner, contamination 0.2:
row 0 is selected and scored, rows 1 and 2 are untouched. -/
theorem iforest_mutation_frame_witness :
    ((buildFeatureMatrix wBatch).2 ≠ []) ∧
    ((detect_outliers_iforest (some trivialLearner) wBatch (1 / 5) 42).anomalies =
      (detectIdxs trivialLearner wBatch (1 / 5) 42).map
        (fun i => (detect_outliers_iforest (some trivialLearner) wBatch (1 / 5) 42).rowsOut.getD i []) ∧
     (detect_outliers_iforest (some trivialLearner) wBatch (1 / 5) 42).rowsOut.length =
       wBatch.length ∧
     (∀ i, i < wBatch.length → i ∈ detectIdxs trivialLearner wBatch (1 / 5) 42 →
       getField ((detect_outliers_iforest (some trivialLearner) wBatch (1 / 5) 42).rowsOut.getD i [])
           "_iforest_score" =
         some (.float (detectScore trivialLearner wBatch (1 / 5) 42 i)) ∧
       ∀ k2, k2 ≠ "_iforest_score" →
         getField ((detect_outliers_iforest (some trivialLearner) wBatch (1 / 5) 42).rowsOut.getD i []) k2 =
           getField (wBatch.getD i []) k2) ∧
     (∀ i, i < wBatch.length → i ∉ detectIdxs trivialLearner wBatch (1 / 5) 42 →
       (detect_outliers_iforest (some trivialLearner) wBatch (1 / 5) 42).rowsOut.getD i [] =
         wBatch.getD i [])) :=
  ⟨by decide, iforest_mutation_frame trivialLearner wBatch (1 / 5) 42 (by decide)⟩

/-- C10: with the learner capability available and at least one retained
column, the ensemble path always returns at least one anomaly, so app.index's
secondary rule-based pass is unreachable in that situation: the page renders
the ensemble result unchanged. -/
theorem ensemble_nonempty_rule_pass_unreachable (L : Learner) (rows : List Record)
    (c : ℚ) (seed : ℤ) (hfeats : (buildFeatureMatrix rows).2 ≠ []) :
    (detect_outliers_iforest (some L) rows c seed).anomalies ≠ [] ∧
    indexDetect (some L) rows =
      ⟨(detect_outliers_iforest (some L) rows (1 / 5) 42).anomalies,
       (detect_outliers_iforest (some L) rows (1 / 5) 42).featNames,
       some (detect_outliers_iforest (some L) rows (1 / 5) 42).scores,
       (detect_outliers_iforest (some L) rows (1 / 5) 42).rowsOut⟩ := by
  have key : ∀ c2 s2, (detect_outliers_iforest (some L) rows c2 s2).anomalies ≠ [] := by
    intro c2 s2
    have hmap := detectIdxs_ne_nil L rows c2 s2 (rows_ne_nil_of_feats hfeats)
    rw [detect_eq_main L rows c2 s2 hfeats]
    simp only [detectMain]
    simpa [List.map_eq_nil_iff] using hmap
  have hre : rows.isEmpty = false := by
    simpa [List.isEmpty_iff] using rows_ne_nil_of_feats hfeats
  have hanom : (detect_outliers_iforest (some L) rows (1 / 5) 42).anomalies.isEmpty
      = false := by
    simpa [List.isEmpty_iff] using key (1 / 5) 42
  refine ⟨key c seed, ?_⟩
  simp only [indexDetect, hre, hanom, Bool.false_eq_true, if_false]

/-- C10 witness: the three-record batch with the trivial learner: the
fallback guarantees one anomaly and the rule pass is skipped. -/
theorem ensemble_nonempty_rule_pass_unreachable_witness :
    ((buildFeatureMatrix wBatch).2 ≠ []) ∧
    ((detect_outliers_iforest (some trivialLearner) wBatch (1 / 5) 42).anomalies ≠ [] ∧
     indexDetect (some trivialLearner) wBatch =
      ⟨(detect_outliers_iforest (some trivialLearner) wBatch (1 / 5) 42).anomalies,
       (detect_outliers_iforest (some trivialLearner) wBatch (1 / 5) 42).featNames,
       some (detect_outliers_iforest (some trivialLearner) wBatch (1 / 5) 42).scores,
       (detect_outliers_iforest (some trivialLearner) wBatch (1 / 5) 42).rowsOut⟩) :=
  ⟨by decide, ensemble_nonempty_rule_pass_unreachable trivialLearner wBatch
    (1 / 5) 42 (by decide)⟩

lemma entryFor_ne_nil (r : Record) : entryFor r ≠ [] := by
  unfold entryFor
  split_ifs with h
  · simp
  · simpa [List.isEmpty_iff] using h

lemma foldl_dictSet_ne_nil (rows : List Record)
    (acc : List (Value × List Suggestion)) (hacc : ∀ p ∈ acc, p.2 ≠ []) :
    ∀ p ∈ rows.foldl (fun a r => dictSet a (hostKey r) (entryFor r)) acc,
      p.2 ≠ [] := by
  induction rows generalizing acc with
  | nil => simpa using hacc
  | cons r t ih =>
    intro p hp
    refine ih _ ?_ p hp
    intro p2 hp2
    rcases dictSet_mem hp2 with h1 | h1
    · rw [h1]
      exact entryFor_ne_nil r
    · exact hacc p2 h1

/-- C7: every host key of suggest_actions maps to a non-empty suggestion
list (the baseline monitor message substitutes when no rule fires), and the
empty batch yields the empty mapping. -/
theorem suggestions_never_empty (rows : List Record) :
    (∀ p ∈ suggest_actions rows, p.2 ≠ []) ∧
    suggest_actions ([] : List Record) = [] := by
  refine ⟨?_, rfl⟩
  unfold suggest_actions
  exact foldl_dictSet_ne_nil rows [] (by simp)

/-- C7 witness: a healthy one-record batch, whose entry is the single
baseline message. -/
theorem suggestions_never_empty_witness :
    ([Suggestion.monitorBaseline] : List Suggestion) ≠ [] ∧
    suggest_actions ([] : List Record) = [] ∧
    suggest_actions [wr3] = [(.str "r3" none, [Suggestion.monitorBaseline])] :=
  ⟨(suggestions_never_empty [wr3]).1 (.str "r3" none, [Suggestion.monitorBaseline])
      (by decide),
   (suggestions_never_empty []).2, by decide⟩

/-- Record for the C5 counterexample: both BGP timers present and unusual
(hold 20 < 3·keepalive 30), but no bgp_peers field. -/
def bgpTimersOnlyRec : Record :=
  [("host", .str "r1" none), ("bgp_keepalive", .int 10), ("bgp_hold", .int 20)]

/-- Scenario record of the spec: bgp_peers 2, keepalive 10, hold 20. -/
def bgpScenarioRec : Record :=
  [("host", .str "h1" none), ("bgp_peers", .int 2),
   ("bgp_keepalive", .int 10), ("bgp_hold", .int 20)]

/-- Scenario record with hold raised to 40 (3·keepalive = 30 ≤ 40). -/
def bgpScenarioRec40 : Record :=
  [("host", .str "h1" none), ("bgp_peers", .int 2),
   ("bgp_keepalive", .int 10), ("bgp_hold", .int 40)]

/-- C5 counterexample: a record whose timers are present as numbers with
hold < 3·keepalive, yet whose suggestions carry no BGP timer-sanity hint -
the timer rule sits inside the bgp_peers-present guard. -/
theorem bgp_timer_counterexample :
    actNum (getField bgpTimersOnlyRec "bgp_keepalive") = some 10 ∧
    actNum (getField bgpTimersOnlyRec "bgp_hold") = some 20 ∧
    (20 : ℚ) < 3 * 10 ∧
    (suggestFor bgpTimersOnlyRec).all (fun s => !s.isBgpTimers) = true ∧
    suggest_actions [bgpTimersOnlyRec] =
      [(.str "r1" none, [Suggestion.monitorBaseline])] := by
  decide

/-- C5 (amended): when bgp_peers is also present, numeric timers with
hold < 3·keepalive always place the timer-sanity hint in that host's
suggestion list; the spec's scenario fires at hold = 20 and not at 40. -/
theorem bgp_timer_hint_fires (r : Record) (ka hold : ℚ)
    (hp : (getField r "bgp_peers").isSome = true)
    (hka : actNum (getField r "bgp_keepalive") = some ka)
    (hh : actNum (getField r "bgp_hold") = some hold)
    (hlt : hold < 3 * ka) :
    Suggestion.bgpTimers hold ka ∈ suggestFor r ∧
    suggest_actions [r] = [(hostKey r, suggestFor r)] ∧
    Suggestion.bgpTimers 20 10 ∈ suggestFor bgpScenarioRec ∧
    (suggestFor bgpScenarioRec40).all (fun s => !s.isBgpTimers) = true := by
  have hbgp : Suggestion.bgpTimers hold ka ∈ bgpHints r := by
    obtain ⟨pv, hpv⟩ := Option.isSome_iff_exists.mp hp
    unfold bgpHints
    rw [hpv, hka, hh]
    simp [hlt]
  have hbase : Suggestion.bgpTimers hold ka ∈ baseHints r := by
    simp only [baseHints, List.mem_append]
    tauto
  have hmem1 : Suggestion.bgpTimers hold ka ∈ suggestFor r := by
    unfold suggestFor
    split_ifs with hfail
    · exact List.mem_append_left _ hbase
    · exact hbase
  have hne : (suggestFor r).isEmpty = false := by
    simpa [List.isEmpty_iff] using List.ne_nil_of_mem hmem1
  refine ⟨hmem1, ?_, by decide, by decide⟩
  simp [suggest_actions, entryFor, hne, dictSet]
  intro h0
  exact absurd h0 (List.ne_nil_of_mem hmem1)

/-- C5 witness (amended claim): the scenario record with peers present and
hold = 20 receives the hint in its host's list. -/
theorem bgp_timer_hint_fires_witness :
    ((getField bgpScenarioRec "bgp_peers").isSome = true ∧
     actNum (getField bgpScenarioRec "bgp_keepalive") = some 10 ∧
     actNum (getField bgpScenarioRec "bgp_hold") = some 20 ∧
     (20 : ℚ) < 3 * 10) ∧
    (Suggestion.bgpTimers 20 10 ∈ suggestFor bgpScenarioRec ∧
     suggest_actions [bgpScenarioRec] = [(hostKey bgpScenarioRec, suggestFor bgpScenarioRec)] ∧
     Suggestion.bgpTimers 20 10 ∈ suggestFor bgpScenarioRec ∧
     (suggestFor bgpScenarioRec40).all (fun s => !s.isBgpTimers) = true) :=
  ⟨⟨by decide, by decide, by decide, by decide⟩,
   bgp_timer_hint_fires bgpScenarioRec 10 20 (by decide) (by decide) (by decide)
     (by decide)⟩

end Agent
